import Mathlib

/-!
Verification of `scripts/generate_pr.py`: a utility that collects git
metadata (commits, changed files, per-file diffs) between a base and a
head reference, assembles a natural-language prompt around a discovered
pull-request template, and writes the prompt to `pr_prompt.txt`.

The script is embedded shallowly.  The outside world (subprocess results,
the filesystem, the argument vector, the working-directory name) is a
value of type `Env`; every Python string operation used by the script
(`str.strip`, slicing `s[:n]`, `str.splitlines`, `str.join`) is embedded
as an executable Lean function on `String` / `List Char`, so that Python's
character-based (not byte-based) semantics is preserved.
-/

set_option maxRecDepth 20000
set_option maxHeartbeats 2000000

namespace GenPR

/-- Whitespace test used by Python's `str.strip()` for ASCII text:
space, tab, newline, carriage return, vertical tab, form feed. -/
def isWS (c : Char) : Bool :=
  c = ' ' || c = '\t' || c = '\n' || c = '\r' || c = '\x0b' || c = '\x0c'

/-- Strip leading and trailing whitespace from a character list. -/
def stripL (l : List Char) : List Char :=
  ((l.dropWhile isWS).reverse.dropWhile isWS).reverse

/-- Embedding of Python's `s.strip()`. -/
def pystrip (s : String) : String :=
  String.mk (stripL s.data)

/-- Embedding of Python's slice `s[:n]` (first `n` characters). -/
def pyslice (s : String) (n : Nat) : String :=
  String.mk (s.data.take n)

/-- Embedding of Python's `str.splitlines()` on `\n`-separated text,
at the character-list level: `[]` on the empty list, no trailing empty
line when the text ends with a newline. -/
def splitlinesL : List Char → List (List Char)
  | [] => []
  | c :: cs =>
    if c = '\n' then [] :: splitlinesL cs
    else
      match splitlinesL cs with
      | [] => [[c]]
      | l :: ls => (c :: l) :: ls

/-- Embedding of Python's `s.splitlines()`. -/
def splitlines (s : String) : List String :=
  (splitlinesL s.data).map String.mk

/-- Embedding of Python's `sep.join(xs)`. -/
def pyjoin (sep : String) : List String → String
  | [] => ""
  | [x] => x
  | x :: xs => x ++ sep ++ pyjoin sep xs

/-- Result of one subprocess invocation: captured standard output,
captured standard error, and the exit code. -/
structure CmdOut where
  stdout : String
  stderr : String
  exitCode : Nat

/-- The external world seen by one run of the script: the behaviour of
subprocess invocations, the readable filesystem (path to content, `none`
when the file does not exist), the resolved name of the current working
directory, and the argument vector `sys.argv` (element 0 is the script
name). -/
structure Env where
  exec : List String → CmdOut
  fs : String → Option String
  cwdName : String
  argv : List String

/-- Embedding of `run`: execute the command, capture stdout and stderr,
and return stdout stripped of surrounding whitespace.  The exit code is
ignored. -/
def run (env : Env) (cmd : List String) : String :=
  pystrip (env.exec cmd).stdout

/-- Embedding of `current_branch`. -/
def current_branch (env : Env) : String :=
  run env ["git", "rev-parse", "--abbrev-ref", "HEAD"]

/-- Embedding of `commits`. -/
def commits (env : Env) (base hd : String) : String :=
  run env ["git", "log", "--pretty=format:- %s", base ++ ".." ++ hd]

/-- Embedding of `changed_files`. -/
def changed_files (env : Env) (base hd : String) : String :=
  run env ["git", "diff", "--name-status", base ++ ".." ++ hd]

/-- The per-file diff computed inside `patch_summary`:
`run(["git", "diff", f"{base}..{head}", "--", f])`. -/
def file_diff (env : Env) (base hd f : String) : String :=
  run env ["git", "diff", base ++ ".." ++ hd, "--", f]

/-- The changed-file listing computed inside `patch_summary`:
`run(["git", "diff", "--name-only", f"{base}..{head}"]).splitlines()`. -/
def changed_names (env : Env) (base hd : String) : List String :=
  splitlines (run env ["git", "diff", "--name-only", base ++ ".." ++ hd])

/-- One formatted block of the patch summary:
`f"\n### {f}\n```diff\n{p[:1500]}\n```"`. -/
def diff_block (f p : String) : String :=
  "\n### " ++ f ++ "\n```diff\n" ++ pyslice p 1500 ++ "\n```"

/-- The list `out` accumulated by the loop of `patch_summary`: one block
per file among the first `limit` listed names whose diff is non-empty. -/
def patch_blocks (env : Env) (base hd : String) (limit : Nat) : List String :=
  ((changed_names env base hd).take limit).filterMap (fun f =>
    let p := file_diff env base hd f
    if p ≠ "" then some (diff_block f p) else none)

/-- Embedding of `patch_summary` (the Python parameter `limit` defaults
to 10; `main` uses that default). -/
def patch_summary (env : Env) (base hd : String) (limit : Nat) : String :=
  pyjoin "\n" (patch_blocks env base hd limit)

/-- First template path checked by `read_template`. -/
def tplPath1 : String := ".pull_request_template.md"

/-- Second template path checked by `read_template`. -/
def tplPath2 : String := ".github/pull_request_template.md"

/-- Fallback template returned when neither path exists. -/
def fallbackTemplate : String := "# Problema\n\n## Solução\n"

/-- Embedding of `read_template`: first existing path wins, else the
fallback. -/
def read_template (env : Env) : String :=
  match env.fs tplPath1 with
  | some c => c
  | none =>
    match env.fs tplPath2 with
    | some c => c
    | none => fallbackTemplate

/-- Embedding of `base = sys.argv[1] if len(sys.argv) > 1 else "main"`. -/
def base_of (argv : List String) : String :=
  match argv with
  | _ :: b :: _ => b
  | _ => "main"

/-- Literal prompt text up to the interpolated template. -/
def promptHeader : String :=
  "\nVocê é um engenheiro experiente escrevendo a descrição de um Pull Request.\n\nPreencha este **template de PR em português**:\n\n---\n\n"

/-- Literal prompt text between the template and the repository name. -/
def ctxPrefix : String := "\n\n---\n\nContexto:\n- Repositório local: "

/-- Literal prompt text between the repository name and the head branch. -/
def branchPrefix : String := "\n- Branch: `"

/-- Literal prompt text between the head branch and the base reference. -/
def arrowMid : String := "` ← `"

/-- Literal prompt text between the base reference and the commit list. -/
def commitsHdr : String := "`\n\nCommits:\n"

/-- Literal prompt text between the commit list and the file list. -/
def filesHdr : String := "\n\nArquivos alterados:\n"

/-- Literal prompt text between the file list and the patch summary. -/
def patchesHdr : String := "\n\nPatches (exemplo):\n"

/-- Literal prompt text after the patch summary. -/
def promptFooter : String :=
  "\n\n---\n\n**Responda com o template preenchido**, sem comentários extras.\n"

/-- The interpolated f-string of `main`, before the final `.strip()`:
collect the metadata and interpolate the document. -/
def assemble_raw (env : Env) (base : String) : String :=
  let hd := current_branch env
  let commits_txt := commits env base hd
  let files_txt := changed_files env base hd
  let patches_txt := patch_summary env base hd 10
  let template := read_template env
  promptHeader ++ template ++ ctxPrefix ++ env.cwdName ++
    branchPrefix ++ hd ++ arrowMid ++ base ++ commitsHdr ++ commits_txt ++
    filesHdr ++ files_txt ++ patchesHdr ++ patches_txt ++ promptFooter

/-- The body of `main` after the base reference has been chosen: the
interpolated document with surrounding whitespace stripped. -/
def assemble (env : Env) (base : String) : String :=
  pystrip (assemble_raw env base)

/-- The prompt string assembled by `main`. -/
def main_prompt (env : Env) : String :=
  assemble env (base_of env.argv)

/-- Embedding of `pathlib.Path(path).write_text(content)`: the resulting
filesystem maps `path` to `content` and every other path to its previous
value. -/
def write_text (fs : String → Option String) (path content : String) :
    String → Option String :=
  fun p => if p = path then some content else fs p

/-- The output file written by `main`. -/
def outPath : String := "pr_prompt.txt"

/-- The filesystem after `main` has run. -/
def main_fs (env : Env) : String → Option String :=
  write_text env.fs outPath (main_prompt env)

/-! ### Specification vocabulary: ordered occurrence of substrings

`OrdSubL ps s` says the patterns `ps` occur in `s`, pairwise disjointly,
in the given relative order: `s` splits as
`a₀ ++ p₀ ++ a₁ ++ p₁ ++ … ++ aₙ`.  `ordSubChk` is the executable greedy
checker, proved sound and complete below. -/

/-- The character lists `ps` occur in `s`, disjointly and in order. -/
inductive OrdSubL : List (List Char) → List Char → Prop where
  | nil : ∀ s, OrdSubL [] s
  | cons : ∀ p ps a r, OrdSubL ps r → OrdSubL (p :: ps) (a ++ (p ++ r))

/-- The strings `ps` occur in `s`, disjointly and in the given order. -/
def OrdSub (ps : List String) (s : String) : Prop :=
  OrdSubL (ps.map String.data) s.data

/-- Executable prefix test on character lists. -/
def isPrefL : List Char → List Char → Bool
  | [], _ => true
  | _ :: _, [] => false
  | p :: ps, c :: cs => p == c && isPrefL ps cs

/-- Find the first occurrence of `pat` in the list and return what
follows it, or `none` when `pat` does not occur. -/
def findDropL (pat : List Char) : List Char → Option (List Char)
  | [] => if isPrefL pat [] then some [] else none
  | c :: cs =>
    if isPrefL pat (c :: cs) then some ((c :: cs).drop pat.length)
    else findDropL pat cs

/-- Greedy checker for `OrdSubL`. -/
def ordSubChk : List (List Char) → List Char → Bool
  | [], _ => true
  | p :: ps, s =>
    match findDropL p s with
    | none => false
    | some r => ordSubChk ps r

/-! ### Basic lemmas about the embedded Python string operations -/

theorem strData_append (a b : String) : (a ++ b).data = a.data ++ b.data := rfl

theorem strExt {a b : String} (h : a.data = b.data) : a = b :=
  congrArg String.mk h

theorem pystrip_data (s : String) : (pystrip s).data = stripL s.data := rfl

theorem pyslice_length_le (s : String) (n : Nat) : (pyslice s n).length ≤ n := by
  show (s.data.take n).length ≤ n
  exact List.length_take_le n s.data

/-- The head of what `dropWhile` leaves never satisfies the predicate. -/
theorem head?_dropWhile_false (p : Char → Bool) (l : List Char) {c : Char}
    (h : (l.dropWhile p).head? = some c) : p c = false := by
  induction l with
  | nil => simp [List.dropWhile] at h
  | cons a l ih =>
    rw [List.dropWhile_cons] at h
    by_cases ha : p a
    · rw [if_pos ha] at h; exact ih h
    · rw [if_neg ha] at h
      simp only [List.head?_cons, Option.some.injEq] at h
      subst h
      exact Bool.eq_false_iff.mpr ha

/-- `dropWhile` removes an initial segment. -/
theorem exists_dropWhile_eq_append (p : Char → Bool) (l : List Char) :
    ∃ u, l = u ++ l.dropWhile p := by
  induction l with
  | nil => exact ⟨[], rfl⟩
  | cons a l ih =>
    rw [List.dropWhile_cons]
    by_cases ha : p a
    · obtain ⟨u, hu⟩ := ih
      exact ⟨a :: u, by simpa [ha] using congrArg (a :: ·) hu⟩
    · exact ⟨[], by simp [ha]⟩

/-- A final element that fails the predicate survives `dropWhile` as a
final element. -/
theorem dropWhile_append_singleton {p : Char → Bool} {c : Char}
    (hc : p c = false) (l : List Char) :
    (l ++ [c]).dropWhile p = l.dropWhile p ++ [c] := by
  induction l with
  | nil => simp [List.dropWhile, hc]
  | cons a l ih =>
    rw [List.cons_append, List.dropWhile_cons, List.dropWhile_cons]
    by_cases ha : p a
    · simpa [ha] using ih
    · simp [ha]

/-- If `u` holds a non-whitespace character, stripping leading
whitespace from `u ++ l` never reaches `l`. -/
theorem dropWhile_isWS_append {u : List Char}
    (h : ∃ c ∈ u, isWS c = false) (l : List Char) :
    ∃ u', (u ++ l).dropWhile isWS = u' ++ l := by
  induction u with
  | nil =>
    obtain ⟨c, hc, _⟩ := h
    exact absurd hc (List.not_mem_nil c)
  | cons a u ih =>
    rw [List.cons_append, List.dropWhile_cons]
    by_cases ha : isWS a
    · obtain ⟨c, hc, hcw⟩ := h
      have hcu : c ∈ u := by
        rcases List.mem_cons.mp hc with h' | h'
        · subst h'; rw [ha] at hcw; exact absurd hcw (by simp)
        · exact h'
      simpa [ha] using ih ⟨c, hcu, hcw⟩
    · exact ⟨a :: u, by simp [ha]⟩

/-! ### Lemmas about `stripL` -/

theorem stripL_nil : stripL [] = [] := rfl

theorem stripL_ws_cons {c : Char} (hc : isWS c = true) (m : List Char) :
    stripL (c :: m) = stripL m := by
  unfold stripL
  rw [List.dropWhile_cons_of_pos hc]

/-- Stripping a list that starts with a non-whitespace character keeps
that character in front. -/
theorem stripL_cons_of_neg {c : Char} (hc : isWS c = false) (m : List Char) :
    stripL (c :: m) = c :: (m.reverse.dropWhile isWS).reverse := by
  unfold stripL
  rw [List.dropWhile_cons_of_neg (by simp [hc]), List.reverse_cons,
    dropWhile_append_singleton hc, List.reverse_append]
  rfl

/-- `stripL` is idempotent: a stripped list has no leading or trailing
whitespace left to remove. -/
theorem stripL_idem (l : List Char) : stripL (stripL l) = stripL l := by
  set A := l.dropWhile isWS with hA
  have hR : stripL l = (A.reverse.dropWhile isWS).reverse := rfl
  set D := A.reverse.dropWhile isWS with hD
  -- `stripL l = D.reverse` is a prefix of `A`
  obtain ⟨u, hu⟩ := exists_dropWhile_eq_append isWS A.reverse
  have hAD : A = D.reverse ++ u.reverse := by
    have := congrArg List.reverse hu
    rwa [List.reverse_reverse, List.reverse_append, ← hD] at this
  have fact1 : (stripL l).dropWhile isWS = stripL l := by
    rw [hR]
    cases hDr : D.reverse with
    | nil => simp
    | cons c t =>
      have hcA : A.head? = some c := by
        rw [hAD, hDr]; rfl
      have hc : isWS c = false :=
        head?_dropWhile_false isWS l (by rw [← hA]; exact hcA)
      rw [List.dropWhile_cons_of_neg (by simp [hc])]
  have fact2 : (stripL l).reverse.dropWhile isWS = (stripL l).reverse := by
    rw [hR, List.reverse_reverse]
    cases hDc : D with
    | nil => simp
    | cons c t =>
      have hc : isWS c = false :=
        head?_dropWhile_false isWS A.reverse (by rw [← hD, hDc]; rfl)
      rw [List.dropWhile_cons_of_neg (by simp [hc])]
  show (((stripL l).dropWhile isWS).reverse.dropWhile isWS).reverse = stripL l
  rw [fact1, fact2, List.reverse_reverse]

/-- A substring flanked by material holding non-whitespace characters
survives stripping. -/
theorem stripL_infix {u v : List Char}
    (hu : ∃ c ∈ u, isWS c = false) (hv : ∃ c ∈ v, isWS c = false)
    (m : List Char) :
    ∃ u' v', stripL (u ++ (m ++ v)) = u' ++ (m ++ v') := by
  obtain ⟨u1, hu1⟩ := dropWhile_isWS_append hu (m ++ v)
  have hv' : ∃ c ∈ v.reverse, isWS c = false := by
    obtain ⟨c, hc, hcw⟩ := hv
    exact ⟨c, List.mem_reverse.mpr hc, hcw⟩
  obtain ⟨v1, hv1⟩ := dropWhile_isWS_append hv' (m.reverse ++ u1.reverse)
  refine ⟨u1, v1.reverse, ?_⟩
  unfold stripL
  rw [hu1]
  have hrev : (u1 ++ (m ++ v)).reverse = v.reverse ++ (m.reverse ++ u1.reverse) := by
    simp [List.reverse_append, List.append_assoc]
  rw [hrev, hv1]
  simp [List.reverse_append, List.append_assoc]

/-- Stripping fixes a list whose first and last characters (when they
exist) are not whitespace. -/
theorem stripL_noop {m : List Char}
    (h1 : ∀ c, m.head? = some c → isWS c = false)
    (h2 : ∀ c, m.getLast? = some c → isWS c = false) :
    stripL m = m := by
  have f1 : m.dropWhile isWS = m := by
    cases hm : m with
    | nil => simp
    | cons c t =>
      have := h1 c (by rw [hm]; rfl)
      rw [List.dropWhile_cons_of_neg (by simp [this])]
  have f2 : m.reverse.dropWhile isWS = m.reverse := by
    cases hm : m.reverse with
    | nil => simp [hm]
    | cons c t =>
      have hc : m.getLast? = some c := by
        rw [← List.head?_reverse, hm]; rfl
      have := h2 c hc
      rw [List.dropWhile_cons_of_neg (by simp [this])]
  unfold stripL
  rw [f1, f2, List.reverse_reverse]

/-- The last character of a nonempty strip-fixed list is not
whitespace. -/
theorem stripL_fixed_getLast {m : List Char} {c : Char}
    (hfix : stripL m = m) (hc : m.getLast? = some c) : isWS c = false := by
  have hrev : m.reverse = (m.dropWhile isWS).reverse.dropWhile isWS := by
    conv_lhs => rw [← hfix]
    unfold stripL
    rw [List.reverse_reverse]
  apply head?_dropWhile_false isWS ((m.dropWhile isWS).reverse)
  rw [← hrev, List.head?_reverse]
  exact hc

/-! ### Lemmas about `splitlinesL`, `splitlines` and `pyjoin` -/

/-- A nonempty newline-free list is a single line. -/
theorem splitlinesL_single {l : List Char} (hne : l ≠ [])
    (hnl : '\n' ∉ l) : splitlinesL l = [l] := by
  induction l with
  | nil => exact absurd rfl hne
  | cons c cs ih =>
    have hc : c ≠ '\n' := fun h => hnl (h ▸ List.mem_cons_self c cs)
    have hcs : '\n' ∉ cs := fun h => hnl (List.mem_cons_of_mem c h)
    unfold splitlinesL
    rw [if_neg hc]
    cases hcse : cs with
    | nil => rfl
    | cons d ds =>
      rw [← hcse, ih (by simp [hcse]) hcs]

theorem splitlinesL_cons (c : Char) (cs : List Char) :
    splitlinesL (c :: cs) =
      if c = '\n' then [] :: splitlinesL cs
      else
        match splitlinesL cs with
        | [] => [[c]]
        | l :: ls => (c :: l) :: ls := rfl

/-- Splitting at an explicit newline after a newline-free first line. -/
theorem splitlinesL_append_newline {l : List Char} (hnl : '\n' ∉ l)
    (r : List Char) : splitlinesL (l ++ '\n' :: r) = l :: splitlinesL r := by
  induction l with
  | nil => simp [splitlinesL]
  | cons c cs ih =>
    have hc : c ≠ '\n' := fun h => hnl (h ▸ List.mem_cons_self c cs)
    have hcs : '\n' ∉ cs := fun h => hnl (List.mem_cons_of_mem c h)
    rw [List.cons_append, splitlinesL_cons, if_neg hc, ih hcs]

theorem pyjoin_cons₂ (sep x y : String) (ys : List String) :
    pyjoin sep (x :: y :: ys) = x ++ sep ++ pyjoin sep (y :: ys) := rfl

/-- `splitlines` undoes `"\n".join` on nonempty newline-free lines. -/
theorem splitlines_pyjoin {lines : List String}
    (h : ∀ s ∈ lines, s.data ≠ [] ∧ '\n' ∉ s.data) :
    splitlines (pyjoin "\n" lines) = lines := by
  induction lines with
  | nil => rfl
  | cons x xs ih =>
    cases xs with
    | nil =>
      obtain ⟨hne, hnl⟩ := h x (List.mem_cons_self x [])
      show (splitlinesL x.data).map String.mk = [x]
      rw [splitlinesL_single hne hnl]
      rfl
    | cons y ys =>
      obtain ⟨hne, hnl⟩ := h x (List.mem_cons_self x (y :: ys))
      have hrest : ∀ s ∈ y :: ys, s.data ≠ [] ∧ '\n' ∉ s.data :=
        fun s hs => h s (List.mem_cons_of_mem x hs)
      have hdata : (pyjoin "\n" (x :: y :: ys)).data =
          x.data ++ '\n' :: (pyjoin "\n" (y :: ys)).data := by
        rw [pyjoin_cons₂, strData_append, strData_append, List.append_assoc]
        rfl
      show (splitlinesL (pyjoin "\n" (x :: y :: ys)).data).map String.mk = _
      rw [hdata, splitlinesL_append_newline hnl]
      have ihr := ih hrest
      show String.mk x.data :: (splitlinesL (pyjoin "\n" (y :: ys)).data).map String.mk
        = x :: y :: ys
      rw [show String.mk x.data = x from rfl]
      exact congrArg (x :: ·) ihr

/-- The first and last characters of a `"\n".join` of bullet lines:
head and last of the join coincide with head of the first line and last
of the last line. -/
theorem pyjoin_head (x : String) (xs : List String) (hx : x.data ≠ []) :
    (pyjoin "\n" (x :: xs)).data.head? = x.data.head? := by
  cases xs with
  | nil => rfl
  | cons y ys =>
    rw [pyjoin_cons₂, strData_append, strData_append]
    cases hxd : x.data with
    | nil => exact absurd hxd hx
    | cons c t => rfl

/-- The last character of a `"\n".join` of nonempty lines is the last
character of some line. -/
theorem pyjoin_getLast_mem (lines : List String) (hne : lines ≠ [])
    (h : ∀ s ∈ lines, s.data ≠ []) :
    ∃ t ∈ lines, (pyjoin "\n" lines).data.getLast? = t.data.getLast? := by
  induction lines with
  | nil => exact absurd rfl hne
  | cons x xs ih =>
    cases xs with
    | nil => exact ⟨x, List.mem_cons_self x [], rfl⟩
    | cons y ys =>
      have hy : ∀ s ∈ y :: ys, s.data ≠ [] :=
        fun s hs => h s (List.mem_cons_of_mem x hs)
      have hyne : y.data ≠ [] := hy y (List.mem_cons_self y ys)
      obtain ⟨t, htm, hteq⟩ := ih (by simp) hy
      -- (the inductive hypothesis is applied to the nonempty tail)
      refine ⟨t, List.mem_cons_of_mem x htm, ?_⟩
      rw [pyjoin_cons₂, strData_append]
      have hjne : (pyjoin "\n" (y :: ys)).data ≠ [] := by
        intro hcon
        have hh := pyjoin_head y ys hyne
        rw [hcon] at hh
        cases hyd : y.data with
        | nil => exact hyne hyd
        | cons c t' => rw [hyd] at hh; simp at hh
      rw [List.getLast?_append_of_ne_nil _ hjne]
      exact hteq

/-! ### Soundness and completeness of the greedy ordered-occurrence
checker -/

theorem isPrefL_iff {p s : List Char} : isPrefL p s = true ↔ ∃ t, s = p ++ t := by
  induction p generalizing s with
  | nil => simp [isPrefL]
  | cons a p ih =>
    cases s with
    | nil =>
      simp only [isPrefL, List.append_eq]
      constructor
      · intro h; exact absurd h (by simp)
      · rintro ⟨t, ht⟩; exact absurd ht (by simp)
    | cons c cs =>
      simp only [isPrefL, Bool.and_eq_true, beq_iff_eq]
      rw [ih]
      constructor
      · rintro ⟨rfl, t, rfl⟩; exact ⟨t, rfl⟩
      · rintro ⟨t, ht⟩
        rw [List.cons_append] at ht
        injection ht with h1 h2
        exact ⟨h1.symm, t, h2⟩

/-- Soundness of `findDropL`: a hit decomposes the list. -/
theorem findDropL_sound {pat s r : List Char}
    (h : findDropL pat s = some r) : ∃ a, s = a ++ (pat ++ r) := by
  induction s with
  | nil =>
    unfold findDropL at h
    by_cases hp : isPrefL pat [] = true
    · rw [if_pos hp] at h
      obtain ⟨t, ht⟩ := isPrefL_iff.mp hp
      have hpat : pat = [] := by
        cases pat with
        | nil => rfl
        | cons c cs => exact absurd ht (by simp)
      injection h with h'
      exact ⟨[], by simp [hpat, ← h']⟩
    · rw [if_neg hp] at h; exact absurd h (by simp)
  | cons c cs ih =>
    unfold findDropL at h
    by_cases hp : isPrefL pat (c :: cs) = true
    · rw [if_pos hp] at h
      obtain ⟨t, ht⟩ := isPrefL_iff.mp hp
      injection h with h'
      refine ⟨[], ?_⟩
      rw [List.nil_append, ht, ← h', ht, List.drop_left]
    · rw [if_neg hp] at h
      obtain ⟨a, ha⟩ := ih h
      exact ⟨c :: a, by rw [ha]; rfl⟩

/-- Completeness of `findDropL`: it finds the first occurrence, whose
remainder extends any given occurrence's remainder. -/
theorem findDropL_complete (pat a r : List Char) :
    ∃ r', findDropL pat (a ++ (pat ++ r)) = some r' ∧ ∃ u, r' = u ++ r := by
  induction a with
  | nil =>
    rw [List.nil_append]
    cases hs : pat ++ r with
    | nil =>
      have hpat : pat = [] := by cases pat with
        | nil => rfl
        | cons c cs => exact absurd hs (by simp)
      have hr : r = [] := by simpa [hpat] using hs
      refine ⟨[], ?_, [], by simp [hr]⟩
      unfold findDropL
      rw [if_pos (isPrefL_iff.mpr ⟨[], by simp [hpat]⟩)]
    | cons c cs =>
      have hpre : isPrefL pat (pat ++ r) = true := isPrefL_iff.mpr ⟨r, rfl⟩
      rw [hs] at hpre
      refine ⟨r, ?_, [], rfl⟩
      unfold findDropL
      rw [if_pos hpre, ← hs, List.drop_left]
  | cons c a ih =>
    rw [List.cons_append]
    unfold findDropL
    by_cases hp : isPrefL pat (c :: (a ++ (pat ++ r))) = true
    · rw [if_pos hp]
      obtain ⟨t, ht⟩ := isPrefL_iff.mp hp
      refine ⟨(c :: (a ++ (pat ++ r))).drop pat.length, rfl, ?_⟩
      -- the remainder after the first occurrence still ends in `r`
      have hlen : pat.length + t.length = (c :: a).length + (pat.length + r.length) := by
        have hl := congrArg List.length ht
        simp only [List.length_cons, List.length_append] at hl ⊢
        omega
      have hdrop : (c :: (a ++ (pat ++ r))).drop pat.length = t := by
        rw [show c :: (a ++ (pat ++ r)) = pat ++ t from ht, List.drop_left]
      have hsplit : c :: (a ++ (pat ++ r)) = (c :: a ++ pat) ++ r := by
        simp [List.append_assoc]
      refine ⟨t.take (t.length - r.length), ?_⟩
      have h3 : (c :: a ++ pat).length = pat.length + (t.length - r.length) := by
        simp only [List.length_append, List.length_cons] at hlen ⊢
        omega
      have hr : r = t.drop (t.length - r.length) := by
        have h2 : (pat ++ t).drop (c :: a ++ pat).length = r := by
          rw [← ht, hsplit, List.drop_left]
        rw [h3] at h2
        conv_lhs => rw [← h2]
        rw [← List.drop_drop, List.drop_left]
      conv_lhs => rw [hdrop]
      conv_lhs => rw [← List.take_append_drop (t.length - r.length) t]
      exact congrArg (t.take (t.length - r.length) ++ ·) hr.symm
    · rw [if_neg hp]
      exact ih

/-- Soundness: the greedy checker only accepts genuine ordered
occurrences. -/
theorem ordSubChk_sound {ps : List (List Char)} {s : List Char}
    (h : ordSubChk ps s = true) : OrdSubL ps s := by
  induction ps generalizing s with
  | nil => exact OrdSubL.nil s
  | cons p ps ih =>
    unfold ordSubChk at h
    cases hf : findDropL p s with
    | none => rw [hf] at h; exact absurd h (by simp)
    | some r =>
      rw [hf] at h
      obtain ⟨a, ha⟩ := findDropL_sound hf
      rw [ha]
      exact OrdSubL.cons p ps a r (ih h)

/-- An ordered occurrence is stable under extending the text on the
left. -/
theorem OrdSubL.mono {ps : List (List Char)} {r : List Char}
    (h : OrdSubL ps r) (u : List Char) : OrdSubL ps (u ++ r) := by
  cases h with
  | nil => exact OrdSubL.nil _
  | cons p ps a rest hrest =>
    rw [← List.append_assoc]
    exact OrdSubL.cons p ps (u ++ a) rest hrest

/-- Completeness: every genuine ordered occurrence is accepted by the
greedy checker. -/
theorem ordSubChk_complete {ps : List (List Char)} {s : List Char}
    (h : OrdSubL ps s) : ordSubChk ps s = true := by
  induction ps generalizing s with
  | nil => rfl
  | cons p ps ih =>
    cases h with
    | cons _ _ a r hr =>
      obtain ⟨r', hfind, u, hu⟩ := findDropL_complete p a r
      unfold ordSubChk
      rw [hfind]
      exact ih (hu ▸ hr.mono u)

/-! ### A `filterMap` of a guarded `some` is a `map` of a `filter` -/

theorem filterMap_guard {α β : Type} (g : α → β) (p : α → Prop)
    [DecidablePred p] (l : List α) :
    l.filterMap (fun a => if p a then some (g a) else none) =
      (l.filter (fun a => decide (p a))).map g := by
  induction l with
  | nil => rfl
  | cons a l ih =>
    rw [List.filterMap_cons, List.filter_cons]
    by_cases h : p a
    · simp only [if_pos h, decide_eq_true h, if_pos]
      rw [List.map_cons, ih]
    · simp only [if_neg h, decide_eq_false h]
      simpa using ih

/-- The loop of `patch_summary` keeps exactly the non-empty diffs of the
first `limit` listed files, in listing order. -/
theorem patch_blocks_eq (env : Env) (base hd : String) (limit : Nat) :
    patch_blocks env base hd limit =
      (((changed_names env base hd).take limit).filter
        (fun f => decide (file_diff env base hd f ≠ ""))).map
        (fun f => diff_block f (file_diff env base hd f)) :=
  filterMap_guard (fun f => diff_block f (file_diff env base hd f))
    (fun f => file_diff env base hd f ≠ "")
    ((changed_names env base hd).take limit)

/-! ### Structure of the assembled document -/

/-- The instruction text after its first two characters. -/
def promptHeaderTail : String :=
  "ocê é um engenheiro experiente escrevendo a descrição de um Pull Request.\n\nPreencha este **template de PR em português**:\n\n---\n\n"

theorem promptHeader_split :
    promptHeader.data = '\n' :: 'V' :: promptHeaderTail.data := by decide

/-- Stripping any document that starts with the instruction header
leaves `V` as the first character. -/
theorem stripL_header_head (rest : List Char) :
    (stripL (promptHeader.data ++ rest)).head? = some 'V' := by
  have h : promptHeader.data ++ rest =
      '\n' :: ('V' :: (promptHeaderTail.data ++ rest)) := by
    rw [promptHeader_split]; rfl
  rw [h, stripL_ws_cons (by decide), stripL_cons_of_neg (by decide)]
  rfl

/-- The character data of the interpolated document, flattened. -/
theorem assemble_raw_data (env : Env) (b : String) :
    (assemble_raw env b).data = promptHeader.data ++ ((read_template env).data ++
      (ctxPrefix.data ++ (env.cwdName.data ++ (branchPrefix.data ++
      ((current_branch env).data ++ (arrowMid.data ++ (b.data ++
      (commitsHdr.data ++ ((commits env b (current_branch env)).data ++
      (filesHdr.data ++ ((changed_files env b (current_branch env)).data ++
      (patchesHdr.data ++ ((patch_summary env b (current_branch env) 10).data ++
      promptFooter.data))))))))))))) := by
  simp only [assemble_raw, strData_append, List.append_assoc]

/-- The character data of `assemble` is the stripped data of the
interpolated document. -/
theorem assemble_data (env : Env) (b : String) :
    (assemble env b).data = stripL ((assemble_raw env b).data) :=
  pystrip_data (assemble_raw env b)

/-- The character data of the prompt assembled by `main`. -/
theorem main_prompt_data (env : Env) :
    (main_prompt env).data =
      stripL ((assemble_raw env (base_of env.argv)).data) :=
  assemble_data env (base_of env.argv)

/-- The loaded template appears verbatim inside the assembled (stripped)
document. -/
theorem assemble_template_infix (env : Env) (b : String) :
    ∃ u v, (assemble env b).data = u ++ ((read_template env).data ++ v) := by
  have hu : ∃ c ∈ promptHeader.data, isWS c = false := ⟨'V', by decide, by decide⟩
  set tail := ctxPrefix.data ++ (env.cwdName.data ++ (branchPrefix.data ++
      ((current_branch env).data ++ (arrowMid.data ++ (b.data ++
      (commitsHdr.data ++ ((commits env b (current_branch env)).data ++
      (filesHdr.data ++ ((changed_files env b (current_branch env)).data ++
      (patchesHdr.data ++ ((patch_summary env b (current_branch env) 10).data ++
      promptFooter.data))))))))))) with htail
  have hv : ∃ c ∈ tail, isWS c = false := by
    refine ⟨'C', ?_, by decide⟩
    rw [htail]
    exact List.mem_append_left _ (by decide)
  obtain ⟨u', v', hsplit⟩ := stripL_infix hu hv ((read_template env).data)
  refine ⟨u', v', ?_⟩
  rw [assemble_data, assemble_raw_data, ← htail]
  exact hsplit

/-! ### Concrete environments used as witnesses and counterexamples -/

/-- Environment whose every command fails (exit code 1) yet prints
`hello` on standard output. -/
def envC2 : Env :=
  Env.mk (fun _ => CmdOut.mk "hello" "" 1) (fun _ => none) "repo"
    ["generate_pr.py"]

/-- Environment whose every command fails and prints only whitespace. -/
def envC2w : Env :=
  Env.mk (fun _ => CmdOut.mk " \n" "" 1) (fun _ => none) "repo"
    ["generate_pr.py"]

/-- Environment with no git output, no template files, no extra
arguments. -/
def env0 : Env :=
  Env.mk (fun _ => CmdOut.mk "" "" 0) (fun _ => none) "repo"
    ["generate_pr.py"]

/-- Environment in which the first template path exists. -/
def env1 : Env :=
  Env.mk (fun _ => CmdOut.mk "" "" 0)
    (fun p => if p = ".pull_request_template.md" then some "T1" else none)
    "repo" ["generate_pr.py"]

/-- The 10-line diff of the spec's example, as `run` returns it
(stripped of the trailing newline git prints). -/
def diffBody : String :=
  "diff --git a/a.py b/a.py\nindex 1111111..2222222 100644\n--- a/a.py\n+++ b/a.py\n@@ -1,4 +1,5 @@\n def f():\n-    return 1\n+    return 2\n+\n     pass"

/-- Subprocess behaviour of the spec's example run: base `main`, head
`feature-x`, commits `Fix bug` and `Add test`, one changed file `a.py`
with a 10-line diff. -/
def exec3 : List String → CmdOut := fun cmd =>
  if cmd = ["git", "rev-parse", "--abbrev-ref", "HEAD"] then
    CmdOut.mk "feature-x\n" "" 0
  else if cmd = ["git", "log", "--pretty=format:- %s", "main..feature-x"] then
    CmdOut.mk "- Fix bug\n- Add test" "" 0
  else if cmd = ["git", "diff", "--name-status", "main..feature-x"] then
    CmdOut.mk "M\ta.py\n" "" 0
  else if cmd = ["git", "diff", "--name-only", "main..feature-x"] then
    CmdOut.mk "a.py\n" "" 0
  else if cmd = ["git", "diff", "main..feature-x", "--", "a.py"] then
    CmdOut.mk (diffBody ++ "\n") "" 0
  else CmdOut.mk "" "" 1

/-- The spec's example environment, with the first template path
present and holding the example template. -/
def env3 : Env :=
  Env.mk exec3
    (fun p => if p = ".pull_request_template.md" then
      some "# Problema\n\n## Solução\n" else none)
    "flutter_ort_plugin" ["generate_pr.py"]

/-! ### The claims -/

/-- C1: for every environment and references, `patch_summary` (at
`main`'s limit of 10) joins the block list; that list has at most 10
blocks, drawn in listing order from the first 10 listed paths with
non-empty diffs; and every diff body is the at-most-1500-character
truncation of the file's diff. -/
theorem claim_C1_patch_summary_caps (env : Env) (base hd : String) :
    patch_summary env base hd 10 = pyjoin "\n" (patch_blocks env base hd 10) ∧
    (patch_blocks env base hd 10).length ≤ 10 ∧
    patch_blocks env base hd 10 =
      (((changed_names env base hd).take 10).filter
        (fun f => decide (file_diff env base hd f ≠ ""))).map
        (fun f => diff_block f (file_diff env base hd f)) ∧
    ∀ f : String, (pyslice (file_diff env base hd f) 1500).length ≤ 1500 := by
  refine ⟨rfl, ?_, patch_blocks_eq env base hd 10,
    fun f => pyslice_length_le _ _⟩
  exact le_trans (List.length_filterMap_le _ _) (List.length_take_le _ _)

/-- C2 counterexample: a command that exits with status 1 but prints
`hello` on standard output makes `run` return `hello`, not the empty
string, refuting the claim that every non-zero-exit command yields the
empty string. -/
theorem claim_C2_counterexample :
    (envC2.exec ["false"]).exitCode ≠ 0 ∧ run envC2 ["false"] = "hello" ∧
      run envC2 ["false"] ≠ "" :=
  ⟨by decide, by decide, by decide⟩

/-- C2 amended: for every command whose execution exits with a non-zero
status and whose captured standard output is empty after stripping
surrounding whitespace, `run` returns the empty string (the exit status
itself is ignored by `run`). -/
theorem claim_C2_run_amended (env : Env) (cmd : List String)
    (hexit : (env.exec cmd).exitCode ≠ 0)
    (hout : pystrip (env.exec cmd).stdout = "") :
    run env cmd = "" := hout

/-- C2 witness: a whitespace-only failing command concretely yields the
empty string. -/
theorem claim_C2_witness :
    (envC2w.exec ["false"]).exitCode ≠ 0 ∧ run envC2w ["false"] = "" :=
  ⟨by decide, claim_C2_run_amended envC2w ["false"] (by decide) (by decide)⟩

/-- C4: a changed file path whose per-file diff is the empty string
contributes no block to the patch summary: the block list is exactly
the image of the listed paths (first `limit`) whose diff is non-empty. -/
theorem claim_C4_empty_diff_skipped (env : Env) (base hd : String)
    (limit : Nat) :
    patch_blocks env base hd limit =
      (((changed_names env base hd).take limit).filter
        (fun f => decide (file_diff env base hd f ≠ ""))).map
        (fun f => diff_block f (file_diff env base hd f)) :=
  patch_blocks_eq env base hd limit

/-- C7: when the program is invoked with no command-line argument
(argument vector of length at most 1), the base reference used throughout
is the fixed default `main`. -/
theorem claim_C7_default_base (env : Env) (h : env.argv.length ≤ 1) :
    main_prompt env = assemble env "main" := by
  show assemble env (base_of env.argv) = assemble env "main"
  cases hv : env.argv with
  | nil => rfl
  | cons a t =>
    cases t with
    | nil => rfl
    | cons b t' =>
      rw [hv] at h
      simp only [List.length_cons] at h
      omega

/-- C7 witness: with the one-element argument vector of `env0`, the
prompt is assembled with base `main`. -/
theorem claim_C7_witness :
    env0.argv.length ≤ 1 ∧ main_prompt env0 = assemble env0 "main" :=
  ⟨by decide, claim_C7_default_base env0 (by decide)⟩

/-- C8: after a run, the output file holds exactly the prompt assembled
by that run, whatever it held before; running twice leaves exactly the
second run's prompt. -/
theorem claim_C8_overwrite (env : Env) :
    main_fs env outPath = some (main_prompt env) ∧
    main_fs (Env.mk env.exec (main_fs env) env.cwdName env.argv) outPath =
      some (main_prompt (Env.mk env.exec (main_fs env) env.cwdName env.argv)) := by
  refine ⟨?_, ?_⟩ <;> simp [main_fs, write_text]

/-- C10: arguments beyond the first positional argument (and the script
name itself) do not influence the assembled prompt: two invocations
agreeing on the subprocess behaviour, filesystem, directory name and
first argument produce identical prompts. -/
theorem claim_C10_extra_args_ignored (e : List String → CmdOut)
    (fs : String → Option String) (n s1 s2 a : String)
    (r1 r2 : List String) :
    main_prompt (Env.mk e fs n (s1 :: a :: r1)) =
      main_prompt (Env.mk e fs n (s2 :: a :: r2)) := rfl

/-- The order of substrings asserted by the spec's example. -/
def claimedOrder : List String :=
  ["- Fix bug", "- Add test", "a.py", diffBody, "# Problema\n\n## Solução\n"]

/-- The order in which those substrings actually occur in the prompt:
the template comes first, before the commit list. -/
def amendedOrder : List String :=
  ["# Problema\n\n## Solução\n", "- Fix bug", "- Add test", "a.py", diffBody]

/-- C3 counterexample: in the spec's example run the five substrings do
not occur in the claimed relative order, because the template content
precedes the commit list in the assembled prompt. -/
theorem claim_C3_counterexample :
    ¬ OrdSub claimedOrder (main_prompt env3) := by
  intro h
  have hchk : ordSubChk (claimedOrder.map String.data)
      (main_prompt env3).data = true := ordSubChk_complete h
  have hfalse : ordSubChk (claimedOrder.map String.data)
      (main_prompt env3).data = false := by decide
  rw [hfalse] at hchk
  exact Bool.noConfusion hchk

/-- C3 amended: in the spec's example run the prompt contains the
template content, `- Fix bug`, `- Add test`, `a.py` and the full diff
text, in that relative order (template first, then commits, file name
and diff). -/
theorem claim_C3_amended : OrdSub amendedOrder (main_prompt env3) :=
  ordSubChk_sound (by decide)

/-- C5: `read_template` returns the first existing of the two fixed
paths, the fallback when neither exists, and the returned text always
appears verbatim inside the assembled prompt. -/
theorem claim_C5_read_template (env : Env) :
    (∀ c, env.fs tplPath1 = some c → read_template env = c) ∧
    (env.fs tplPath1 = none → ∀ c, env.fs tplPath2 = some c →
      read_template env = c) ∧
    (env.fs tplPath1 = none → env.fs tplPath2 = none →
      read_template env = fallbackTemplate) ∧
    (∃ u v, (main_prompt env).data = u ++ ((read_template env).data ++ v)) := by
  refine ⟨?_, ?_, ?_, assemble_template_infix env (base_of env.argv)⟩
  · intro c hc; unfold read_template; rw [hc]
  · intro hn c hc; unfold read_template; rw [hn, hc]
  · intro hn1 hn2; unfold read_template; rw [hn1, hn2]

/-- C5 witness: with no template files the fallback is returned; with
the first path present its content is returned; the returned text sits
inside the prompt. -/
theorem claim_C5_witness :
    read_template env0 = fallbackTemplate ∧ read_template env1 = "T1" ∧
      ∃ u v, (main_prompt env0).data = u ++ ((read_template env0).data ++ v) :=
  ⟨(claim_C5_read_template env0).2.2.1 rfl rfl,
   (claim_C5_read_template env1).1 "T1" (by decide),
   (claim_C5_read_template env0).2.2.2⟩

/-- C6: when the tool reports one commit subject per line in the
range's `- <subject>` format (subjects without newlines, nonempty and
already stripped, in the tool's native order), the commit text splits
back into exactly one bullet line per reported commit, in the same
order; distinct subjects give no duplicate lines. -/
theorem claim_C6_commit_list (env : Env) (base hd : String) (L : List String)
    (h1 : (env.exec ["git", "log", "--pretty=format:- %s",
        base ++ ".." ++ hd]).stdout = pyjoin "\n" (L.map (fun s => "- " ++ s)))
    (h2 : ∀ s ∈ L, '\n' ∉ s.data ∧ s.data ≠ [] ∧ stripL s.data = s.data) :
    splitlines (commits env base hd) = L.map (fun s => "- " ++ s) ∧
      (L.Nodup → (splitlines (commits env base hd)).Nodup) := by
  have hbul : ∀ t : String, ("- " ++ t).data = '-' :: ' ' :: t.data :=
    fun t => rfl
  have hlines : ∀ s ∈ L.map (fun s => "- " ++ s),
      s.data ≠ [] ∧ '\n' ∉ s.data := by
    intro s hs
    obtain ⟨t, ht, rfl⟩ := List.mem_map.mp hs
    refine ⟨by rw [hbul]; simp, ?_⟩
    intro hmem
    rw [hbul] at hmem
    rcases List.mem_cons.mp hmem with hbad | hmem2
    · exact absurd hbad (by decide)
    rcases List.mem_cons.mp hmem2 with hbad | hmem3
    · exact absurd hbad (by decide)
    · exact (h2 t ht).1 hmem3
  have hstrip : pystrip (pyjoin "\n" (L.map (fun s => "- " ++ s))) =
      pyjoin "\n" (L.map (fun s => "- " ++ s)) := by
    cases L with
    | nil => rfl
    | cons x xs =>
      apply strExt
      rw [pystrip_data]
      simp only [List.map_cons]
      apply stripL_noop
      · intro c hc
        rw [pyjoin_head ("- " ++ x) (xs.map (fun s => "- " ++ s))
          (by rw [hbul]; simp)] at hc
        rw [hbul] at hc
        simp only [List.head?_cons, Option.some.injEq] at hc
        rw [← hc]
        decide
      · intro c hc
        have hne : ∀ s ∈ ("- " ++ x) :: xs.map (fun s => "- " ++ s),
            s.data ≠ [] :=
          fun s hs => (hlines s (by simpa using hs)).1
        obtain ⟨t0, ht0, hteq⟩ := pyjoin_getLast_mem
          (("- " ++ x) :: xs.map (fun s => "- " ++ s)) (by simp) hne
        rw [hteq] at hc
        have hbullet : ∃ t ∈ x :: xs, t0 = "- " ++ t := by
          rcases List.mem_cons.mp ht0 with he | hs'
          · exact ⟨x, List.mem_cons_self x xs, he⟩
          · obtain ⟨t, ht, hte⟩ := List.mem_map.mp hs'
            exact ⟨t, List.mem_cons_of_mem x ht, hte.symm⟩
        obtain ⟨t, htm, rfl⟩ := hbullet
        have hsp : ('-' :: ' ' :: t.data : List Char) = ['-', ' '] ++ t.data :=
          rfl
        rw [hbul, hsp, List.getLast?_append_of_ne_nil _ ((h2 t htm).2.1)] at hc
        exact stripL_fixed_getLast ((h2 t htm).2.2) hc
  have e : commits env base hd = pyjoin "\n" (L.map (fun s => "- " ++ s)) := by
    show pystrip (env.exec ["git", "log", "--pretty=format:- %s",
      base ++ ".." ++ hd]).stdout = _
    rw [h1]
    exact hstrip
  have hinj : Function.Injective (fun s : String => "- " ++ s) := by
    intro a b hab
    have hx : ('-' :: ' ' :: a.data : List Char) = '-' :: ' ' :: b.data := by
      rw [← hbul, ← hbul]
      exact congrArg String.data hab
    apply strExt
    simpa using hx
  refine ⟨?_, ?_⟩
  · rw [e]
    exact splitlines_pyjoin hlines
  · intro hnd
    rw [e, splitlines_pyjoin hlines]
    exact hnd.map hinj

/-- C6 witness: in the example environment the commit text splits into
exactly the two bullet lines, without duplicates. -/
theorem claim_C6_witness :
    splitlines (commits env3 "main" "feature-x") =
        ["- Fix bug", "- Add test"] ∧
      (splitlines (commits env3 "main" "feature-x")).Nodup := by
  have h := claim_C6_commit_list env3 "main" "feature-x"
    ["Fix bug", "Add test"] (by decide) (by decide)
  exact ⟨h.1, h.2 (by decide)⟩

/-- C9: the prompt written by `main` carries no surrounding whitespace
(stripping it again changes nothing) and starts with `V`, the first
non-whitespace character of the instruction text. -/
theorem claim_C9_no_surrounding_ws (env : Env) :
    pystrip (main_prompt env) = main_prompt env ∧
    (main_prompt env).data.head? = some 'V' := by
  constructor
  · apply strExt
    rw [pystrip_data, main_prompt_data]
    exact stripL_idem _
  · rw [main_prompt_data, assemble_raw_data]
    exact stripL_header_head _

end GenPR
